import Mathlib

/-!
Verification development for the odeon change-detection repository.

The fully-convolutional Siamese change-detection models
(`src/odeon/models/change/arch/change_unet.py`) are embedded at two levels:

* a data-level model of 4-D feature-map tensors as nested lists of integers,
  with `torch.cat` (dim 1) and broadcasting subtraction modelled faithfully,
  used for the fusion steps of `FCSiamConc.forward` and `FCSiamDiff.forward`;
* a shape-level model of the whole forward pass, where the external encoder,
  Unet decoder and segmentation head (explicit non-goals of the spec,
  provided by outside libraries) are modelled from the contracts given in the spec.

The MLflow logger (`src/xp/mlflow_logger.py`) is embedded by modelling the
`log_metrics` loop and `_scan_and_log_checkpoints` as pure functions that
return the warnings raised and the batches / artifacts transmitted to the
external tracking client.
-/

/-- A 3-D tensor (channels, height, width) as nested lists of integers.
Integer entries stand in for the float entries of the real tensors; none of
the verified properties depends on the arithmetic of the scalar field beyond
subtraction and negation. -/
abbrev T3 := List (List (List Int))

/-- A 4-D tensor (batch, channels, height, width). -/
abbrev Tensor4 := List T3

/-- A 5-D tensor (batch, time, channels, height, width): the Bitemporal
Batch of the data model in the spec. -/
abbrev Tensor5 := List (List T3)

/-- The shape of a 4-D tensor. -/
structure Shape4 where
  b : Nat
  c : Nat
  h : Nat
  w : Nat
deriving DecidableEq, Repr

/-- Predicate: `t` is a rectangular tensor of shape `s`. -/
def hasShape (t : Tensor4) (s : Shape4) : Prop :=
  t.length = s.b ∧ ∀ ch ∈ t, ch.length = s.c ∧
    ∀ m ∈ ch, m.length = s.h ∧ ∀ r ∈ m, r.length = s.w

instance (t : Tensor4) (s : Shape4) : Decidable (hasShape t s) := by
  unfold hasShape; infer_instance

/-- The shape a tensor advertises, read off from its first elements
(meaningful for rectangular tensors with positive dimensions). -/
def shapeOf (t : Tensor4) : Shape4 :=
  ⟨t.length, (t.headD []).length, ((t.headD []).headD []).length,
   (((t.headD []).headD []).headD []).length⟩

/-- Sequence a list of optional values, failing if any entry fails. -/
def optSequence : List (Option α) → Option (List α)
  | [] => some []
  | none :: _ => none
  | some x :: rest => (optSequence rest).map (fun xs => x :: xs)

/-- Combine two lists with a fallible binary operation under the broadcasting
rule of the numerical library: sizes must agree, or a size-1 operand is
repeated against the other operand. -/
def bzip (f : α → β → Option γ) (a : List α) (b : List β) : Option (List γ) :=
  if a.length = b.length then optSequence (List.zipWith f a b)
  else match a, b with
    | [x], bs => optSequence (bs.map (fun y => f x y))
    | as, [y] => optSequence (as.map (fun x => f x y))
    | _, _ => none

/-- Elementwise subtraction of innermost rows, with broadcasting. -/
def subRow (a b : List Int) : Option (List Int) :=
  bzip (fun x y => some (x - y)) a b

/-- Subtraction of matrices (height level), with broadcasting. -/
def subMat : List (List Int) → List (List Int) → Option (List (List Int)) :=
  bzip subRow

/-- Subtraction of 3-D tensors (channel level), with broadcasting. -/
def subChan : T3 → T3 → Option T3 :=
  bzip subMat

/-- The subtraction `a - b` of two 4-D tensors as performed by the numerical
library: elementwise with broadcasting, failing on non-broadcastable sizes. -/
def tensorSub : Tensor4 → Tensor4 → Option Tensor4 :=
  bzip subChan

/-- Aligned elementwise subtraction of two same-shaped 4-D tensors. -/
def zipSub4 (a b : Tensor4) : Tensor4 :=
  List.zipWith (List.zipWith (List.zipWith (List.zipWith
    (fun x y : Int => x - y)))) a b

/-- Elementwise negation of a 4-D tensor. -/
def neg4 (a : Tensor4) : Tensor4 :=
  a.map (List.map (List.map (List.map (fun x : Int => -x))))

/-- The all-zero tensor of the same shape as `a`. -/
def zeroLike4 (a : Tensor4) : Tensor4 :=
  a.map (List.map (List.map (List.map (fun _ : Int => (0 : Int)))))

/-- Model of `torch.cat([a, b], dim=1)`: concatenation along channels.
The library requires both operands to be rectangular tensors agreeing in
every dimension except dimension 1, and fails otherwise. -/
def tensorCat (a b : Tensor4) : Option Tensor4 :=
  if hasShape a (shapeOf a) ∧ hasShape b (shapeOf b) ∧
     (shapeOf a).b = (shapeOf b).b ∧ (shapeOf a).h = (shapeOf b).h ∧
     (shapeOf a).w = (shapeOf b).w
  then some (List.zipWith (fun ch1 ch2 => ch1 ++ ch2) a b)
  else none

/-- One fused entry of the comprehension: `op(features2[i], features1[i])`,
failing if either index is out of range. -/
def fuseEntry (op : α → α → Option α) (features1 features2 : List α)
    (i : Nat) : Option α :=
  match features2[i]?, features1[i]? with
  | some t2, some t1 => op t2 t1
  | _, _ => none

/-- The common fusion skeleton of `FCSiamConc.forward` and
`FCSiamDiff.forward` (change_unet.py lines 116-117 and 198-199):

    features = [op(features2[i], features1[i]) for i in range(1, len(features1))]
    features.insert(0, features2[0])

Indexing `features2[i]` fails when `features2` is too short, exactly as the
Python list indexing raises IndexError; levels of `features2` beyond
`len(features1)` are never inspected. -/
def pyrFuse (op : α → α → Option α) (features1 features2 : List α) :
    Option (List α) :=
  match optSequence ((List.range' 1 (features1.length - 1)).map
      (fuseEntry op features1 features2)) with
  | none => none
  | some fused =>
    match features2[0]? with
    | none => none
    | some f20 => some (f20 :: fused)

/-- The concatenation-fusion step of `FCSiamConc.forward`
(change_unet.py lines 116-117), with `features1 = encoder(x[:, 0])` the T0
pyramid and `features2 = encoder(x[:, 1])` the T1 pyramid. -/
def concFuse (features1 features2 : List Tensor4) : Option (List Tensor4) :=
  pyrFuse tensorCat features1 features2

/-- The difference-fusion step of `FCSiamDiff.forward`
(change_unet.py lines 198-199). -/
def diffFuse (features1 features2 : List Tensor4) : Option (List Tensor4) :=
  pyrFuse tensorSub features1 features2

/-- The two lists have equal length (innermost level). -/
abbrev sameDims1 (a b : List Int) : Prop := a.length = b.length

/-- Aligned equal lengths at the two innermost levels. -/
abbrev sameDims2 (a b : List (List Int)) : Prop :=
  a.length = b.length ∧ ∀ p ∈ List.zip a b, sameDims1 p.1 p.2

/-- Aligned equal lengths at the three innermost levels. -/
abbrev sameDims3 (a b : T3) : Prop :=
  a.length = b.length ∧ ∀ p ∈ List.zip a b, sameDims2 p.1 p.2

/-- Aligned equal dimensions of two 4-D tensors. -/
abbrev sameDims4 (a b : Tensor4) : Prop :=
  a.length = b.length ∧ ∀ p ∈ List.zip a b, sameDims3 p.1 p.2

/-- Model of `x[:, i]`: select time slice `i` of a Bitemporal Batch, failing when the
time dimension is smaller than `i + 1`, as tensor indexing would. -/
def sliceTime (x : Tensor5) (i : Nat) : Option Tensor4 :=
  optSequence (x.map (fun bt => bt[i]?))

/-- The encoder-and-fusion front half of `FCSiamDiff.forward`
(change_unet.py lines 195-199): split the batch into its two time slices,
apply the one shared encoder `self.encoder` to both slices, and
difference-fuse the two pyramids. The encoder is an arbitrary function of
the slice; the only fact the model wiring provides is that the very same
function is applied to both slices. -/
def fcSiamDiffFusedPyramid (enc : Tensor4 → List Tensor4) (x : Tensor5) :
    Option (List Tensor4) :=
  match sliceTime x 0, sliceTime x 1 with
  | some x1, some x2 => diffFuse (enc x1) (enc x2)
  | _, _ => none

/-- Model of `FCSiamConc.__init__` (change_unet.py lines 82-83): the encoder-channel
configuration handed to the Unet decoder,

    encoder_out_channels = [c * 2 for c in self.encoder.out_channels[1:]]
    encoder_out_channels.insert(0, self.encoder.out_channels[0])

failing (IndexError) when the `out_channels` list of the encoder is empty. -/
def concDecoderEncoderChannels (out_channels : List Nat) : Option (List Nat) :=
  match out_channels[0]? with
  | none => none
  | some c0 => some (c0 :: (out_channels.drop 1).map (fun c => c * 2))

/-! ### Shape-level model of the full forward pass -/

/-- The shape of a 5-D Bitemporal Batch tensor. -/
structure Shape5 where
  b : Nat
  t : Nat
  c : Nat
  h : Nat
  w : Nat
deriving DecidableEq, Repr

/-- Shape of `x[:, i]`: drops the time dimension, failing when the time
dimension is smaller than `i + 1`. -/
def sliceShape (x : Shape5) (i : Nat) : Option Shape4 :=
  if i < x.t then some ⟨x.b, x.c, x.h, x.w⟩ else none

/-- The pyramid of feature-map shapes produced by the encoder on an input
of shape `x`: one level per entry of `out_channels`, level `i` carrying
`out_channels[i]` channels at spatial size halved `i` times. -/
def encoderPyramid (outChannels : List Nat) (x : Shape4) : List Shape4 :=
  (List.range outChannels.length).map
    (fun i => ⟨x.b, outChannels.getD i 0, x.h / 2 ^ i, x.w / 2 ^ i⟩)

/-- Modelled from the spec: the external encoder backbone (a collaborator
outside this repository) maps a `(B, C, H, W)` image whose channel count
matches its configured `in_channels` to the feature pyramid
`encoderPyramid`. -/
def encoderShapes (inChannels : Nat) (outChannels : List Nat) (x : Shape4) :
    Option (List Shape4) :=
  if x.c = inChannels then some (encoderPyramid outChannels x) else none

/-- Shape of `torch.cat([a, b], dim=1)`: channel counts add; every other
dimension must agree. -/
def catShape (a b : Shape4) : Option Shape4 :=
  if a.b = b.b ∧ a.h = b.h ∧ a.w = b.w
  then some ⟨a.b, a.c + b.c, a.h, a.w⟩ else none

/-- Broadcast two sizes: equal sizes, or a size-1 side stretched. -/
def broadcastDim (n m : Nat) : Option Nat :=
  if n = m then some n
  else if n = 1 then some m
  else if m = 1 then some n
  else none

/-- Shape of the broadcasting subtraction `a - b`. -/
def subShape (a b : Shape4) : Option Shape4 :=
  match broadcastDim a.b b.b, broadcastDim a.c b.c,
        broadcastDim a.h b.h, broadcastDim a.w b.w with
  | some bb, some cc, some hh, some ww => some ⟨bb, cc, hh, ww⟩
  | _, _, _, _ => none

/-- Shape-level concatenation fusion of `FCSiamConc.forward`. -/
def concFuseShape (f1 f2 : List Shape4) : Option (List Shape4) :=
  pyrFuse catShape f1 f2

/-- Shape-level difference fusion of `FCSiamDiff.forward`. -/
def diffFuseShape (f1 f2 : List Shape4) : Option (List Shape4) :=
  pyrFuse subShape f1 f2

/-- Modelled from the spec: the external Unet decoder (a collaborator
outside this repository) upsamples a fused feature pyramid into a single
dense map matching the level-0 spatial resolution of the pyramid, carrying the
last configured decoder channel count; it fails on an empty pyramid. -/
def decoderShape (decoderChannels : List Nat) (features : List Shape4) :
    Option Shape4 :=
  match features[0]? with
  | none => none
  | some f0 => some ⟨f0.b, decoderChannels.getLastD 0, f0.h, f0.w⟩

/-- Modelled from the spec: the external segmentation head projects the
channels of the decoder output to `classes` channels at the same spatial size. -/
def headShape (classes : Nat) (x : Shape4) : Shape4 :=
  ⟨x.b, classes, x.h, x.w⟩

/-- Shape-level `FCSiamConc.forward` (change_unet.py lines 106-120):
split the batch into its two time slices, encode both with the shared
encoder, concatenation-fuse, decode, and apply the segmentation head. -/
def fcSiamConcForwardShape (inChannels : Nat)
    (outChannels decoderChannels : List Nat) (classes : Nat) (x : Shape5) :
    Option Shape4 :=
  (sliceShape x 0).bind (fun x1 =>
  (sliceShape x 1).bind (fun x2 =>
  (encoderShapes inChannels outChannels x1).bind (fun f1 =>
  (encoderShapes inChannels outChannels x2).bind (fun f2 =>
  (concFuseShape f1 f2).bind (fun fused =>
  (decoderShape decoderChannels fused).bind (fun dOut =>
  some (headShape classes dOut)))))))

/-- Shape-level `FCSiamDiff.forward` (change_unet.py lines 188-202). -/
def fcSiamDiffForwardShape (inChannels : Nat)
    (outChannels decoderChannels : List Nat) (classes : Nat) (x : Shape5) :
    Option Shape4 :=
  (sliceShape x 0).bind (fun x1 =>
  (sliceShape x 1).bind (fun x2 =>
  (encoderShapes inChannels outChannels x1).bind (fun f1 =>
  (encoderShapes inChannels outChannels x2).bind (fun f2 =>
  (diffFuseShape f1 f2).bind (fun fused =>
  (decoderShape decoderChannels fused).bind (fun dOut =>
  some (headShape classes dOut)))))))

/-! ### Model of the MLflow logger -/

/-- A metric value handed to `MLFlowLogger.log_metrics`: numeric (integers
stand in for floats; no verified property computes with the value) or a
string, which the logger must discard. -/
inductive MetricValue where
  | num : Int → MetricValue
  | str : String → MetricValue
deriving DecidableEq, Repr

/-- Membership in the character class `[a-zA-Z0-9_/. -]` of the
`re.sub("[^a-zA-Z0-9_/. -]+", "", k)` call in `log_metrics`
(mlflow_logger.py line 268). -/
def allowedMetricChar (ch : Char) : Bool :=
  ('a' ≤ ch && ch ≤ 'z') || ('A' ≤ ch && ch ≤ 'Z') ||
  ('0' ≤ ch && ch ≤ '9') || ch = '_' || ch = '/' || ch = '.' ||
  ch = ' ' || ch = '-'

/-- Model of the `re.sub` call deleting every maximal run of
characters outside the class deletes exactly the characters outside the
class. -/
def sanitizeMetricName (k : String) : String :=
  String.mk (k.data.filter allowedMetricChar)

/-- A warning emitted by the `log_metrics` loop. -/
inductive LogEvent where
  | warnDiscard (key : String) (value : String)
  | warnRename (old new : String)
deriving DecidableEq, Repr

/-- One `Metric(key=..., value=..., timestamp=..., step=...)` record placed
in the batch transmitted to the MLflow client. -/
structure LoggedMetric where
  key : String
  value : Int
  timestamp : Int
  step : Nat
deriving DecidableEq, Repr

/-- The `for k, v in metrics.items()` loop of `MLFlowLogger.log_metrics`
(mlflow_logger.py lines 263-276), returning the warnings emitted and the
metric batch passed to `self.experiment.log_batch`. `step.getD 0` models
the Python `step or 0` (both `None` and `0` yield `0`). -/
def logMetricsLoop (timestampMs : Int) (step : Option Nat) :
    List (String × MetricValue) → List LogEvent × List LoggedMetric
  | [] => ([], [])
  | (k, v) :: rest =>
    let tail := logMetricsLoop timestampMs step rest
    match v with
    | MetricValue.str s => (LogEvent.warnDiscard k s :: tail.1, tail.2)
    | MetricValue.num n =>
      let newK := sanitizeMetricName k
      if k ≠ newK then
        (LogEvent.warnRename k newK :: tail.1,
         ⟨newK, n, timestampMs, step.getD 0⟩ :: tail.2)
      else
        (tail.1, ⟨k, n, timestampMs, step.getD 0⟩ :: tail.2)

/-! ### Model of checkpoint artifact logging -/

/-- Model of `pathlib.Path(p).name` for ordinary file paths: the last nonempty
component of the `/`-separated path. -/
def pathName (p : String) : String :=
  ((p.splitOn ("/")).filter (fun s => s ≠ "")).getLastD ("")

/-- Index of the last `.` in a list of characters, if any. -/
def lastDotIdx (l : List Char) : Option Nat :=
  match l.reverse.findIdx? (fun c => c = '.') with
  | none => none
  | some j => some (l.length - 1 - j)

/-- Model of `pathlib.Path(p).stem`: the final component without its suffix. The
suffix is the part from the last `.` when that dot is neither the first nor
the last character of the name. -/
def pathStem (p : String) : String :=
  let n := pathName p
  match lastDotIdx n.data with
  | none => n
  | some i =>
    if 0 < i ∧ i + 1 < n.data.length then String.mk (n.data.take i) else n

/-- The checkpoint-policy attributes `_scan_and_log_checkpoints` copies into
the metadata document (mlflow_logger.py lines 344-357). -/
def checkpointMetaKeys : List String :=
  ["monitor", "mode", "save_last", "save_top_k", "save_weights_only",
   "_every_n_train_steps", "_every_n_val_epochs"]

/-- The external `ModelCheckpoint` callback as seen by the logger: its best
model path and its attributes (`attrs k = none` models `hasattr` being
false, attribute values rendered as strings). -/
structure ModelCheckpointCB where
  best_model_path : String
  attrs : String → Option String

/-- The metadata document written next to an uploaded checkpoint. -/
structure CkptMetadata where
  score : Int
  original_filename : String
  checkpointCfg : List (String × String)
deriving DecidableEq, Repr

/-- One artifact upload performed through the external MLflow client. -/
inductive MlflowArtifact where
  | file (runId : String) (localPath : String) (artifactPath : String)
  | metadataDoc (runId : String) (artifactPath : String) (meta : CkptMetadata)
  | aliasesDoc (runId : String) (artifactPath : String) (aliases : List String)
deriving DecidableEq, Repr

/-- Model of `MLFlowLogger._scan_and_log_checkpoints` (mlflow_logger.py lines
334-384), as the list of artifact uploads it performs. The `checkpoints`
argument is the `(time, path, score, tag)` list returned by the external
`_scan_checkpoints` collaborator; scores are already extracted numbers
(`.item()` on tensors). -/
def scanAndLogCheckpoints (runId : String) (cb : ModelCheckpointCB)
    (checkpoints : List (Int × String × Int × String)) :
    List MlflowArtifact :=
  checkpoints.flatMap (fun tpst =>
    let p := tpst.2.1
    let s := tpst.2.2.1
    let metadata : CkptMetadata :=
      ⟨s, pathName p,
       checkpointMetaKeys.filterMap (fun k => (cb.attrs k).map (fun v => (k, v)))⟩
    let aliases := if p = cb.best_model_path then ["latest", "best"]
      else ["latest"]
    let artifactPath := "model/checkpoints/" ++ pathStem p
    [MlflowArtifact.file runId p artifactPath,
     MlflowArtifact.metadataDoc runId artifactPath metadata,
     MlflowArtifact.aliasesDoc runId artifactPath aliases])

/-! ### Basic lemmas about the option-sequencing combinators -/

lemma optSequence_map_some (F : α → Option β) (G : α → β) :
    ∀ l : List α, (∀ x ∈ l, F x = some (G x)) →
      optSequence (l.map F) = some (l.map G) := by
  intro l
  induction l with
  | nil => intro _; rfl
  | cons x xs ih =>
    intro h
    have hx := h x (List.mem_cons_self x xs)
    have hxs := ih (fun y hy => h y (List.mem_cons_of_mem x hy))
    simp [optSequence, hx, hxs]

lemma optSequence_none_of_mem (l : List (Option α)) (h : none ∈ l) :
    optSequence l = none := by
  induction l with
  | nil => cases h
  | cons x xs ih =>
    rcases List.mem_cons.mp h with hx | hxs
    · subst hx; rfl
    · cases x with
      | none => rfl
      | some y => simp [optSequence, ih hxs]

lemma optSequence_zipWith (f : α → β → Option γ) (g : α → β → γ) :
    ∀ (a : List α) (b : List β),
      (∀ p ∈ List.zip a b, f p.1 p.2 = some (g p.1 p.2)) →
      optSequence (List.zipWith f a b) = some (List.zipWith g a b) := by
  intro a
  induction a with
  | nil => intro b _; rfl
  | cons x xs ih =>
    intro b h
    cases b with
    | nil => rfl
    | cons y ys =>
      have hx := h (x, y) (by simp [List.zip_cons_cons])
      have hxs := ih ys (fun p hp => h p (by simp [List.zip_cons_cons, hp]))
      simp [List.zipWith, optSequence, hx, hxs]

lemma bzip_eq (f : α → β → Option γ) (g : α → β → γ) (a : List α) (b : List β)
    (hlen : a.length = b.length)
    (hf : ∀ p ∈ List.zip a b, f p.1 p.2 = some (g p.1 p.2)) :
    bzip f a b = some (List.zipWith g a b) := by
  unfold bzip
  rw [if_pos hlen]
  exact optSequence_zipWith f g a b hf

lemma bzip_none (f : α → β → Option γ) (a : List α) (b : List β)
    (hlen : a.length ≠ b.length) (ha : a.length ≠ 1) (hb : b.length ≠ 1) :
    bzip f a b = none := by
  unfold bzip
  rw [if_neg hlen]
  cases a with
  | nil =>
    cases b with
    | nil => simp at hlen
    | cons y ys =>
      cases ys with
      | nil => simp at hb
      | cons y2 ys2 => rfl
  | cons x xs =>
    cases xs with
    | nil => simp at ha
    | cons x2 xs2 =>
      cases b with
      | nil => rfl
      | cons y ys =>
        cases ys with
        | nil => simp at hb
        | cons y2 ys2 => rfl

lemma bzip_none_of_all (f : α → β → Option γ) (a : List α) (b : List β)
    (ha : 0 < a.length) (hb : 0 < b.length)
    (hf : ∀ x ∈ a, ∀ y ∈ b, f x y = none) :
    bzip f a b = none := by
  unfold bzip
  cases a with
  | nil => simp at ha
  | cons x xs =>
    cases b with
    | nil => simp at hb
    | cons y ys =>
      have hxy := hf x (List.mem_cons_self _ _) y (List.mem_cons_self _ _)
      by_cases hlen : (x :: xs).length = (y :: ys).length
      · rw [if_pos hlen]
        apply optSequence_none_of_mem
        rw [List.zipWith_cons_cons]
        simp [hxy]
      · rw [if_neg hlen]
        cases xs with
        | nil =>
          cases ys with
          | nil => simp at hlen
          | cons y2 ys2 =>
            show optSequence ((y :: y2 :: ys2).map (fun yy => f x yy)) = none
            apply optSequence_none_of_mem
            simp only [List.map_cons, hxy]
            exact List.mem_cons_self _ _
        | cons x2 xs2 =>
          cases ys with
          | nil =>
            show optSequence ((x :: x2 :: xs2).map (fun x3 => f x3 y)) = none
            apply optSequence_none_of_mem
            simp only [List.map_cons, hxy]
            exact List.mem_cons_self _ _
          | cons y2 ys2 => rfl

lemma tensorSub_none (a a2 : Tensor4) (s2 s1 : Shape4)
    (hsa : hasShape a s2) (hsa2 : hasShape a2 s1)
    (hb2 : 0 < s2.b) (hc2 : 0 < s2.c) (hh2 : 0 < s2.h)
    (hb1 : 0 < s1.b) (hc1 : 0 < s1.c) (hh1 : 0 < s1.h)
    (hmis : (s2.b ≠ s1.b ∧ s2.b ≠ 1 ∧ s1.b ≠ 1) ∨
            (s2.c ≠ s1.c ∧ s2.c ≠ 1 ∧ s1.c ≠ 1) ∨
            (s2.h ≠ s1.h ∧ s2.h ≠ 1 ∧ s1.h ≠ 1) ∨
            (s2.w ≠ s1.w ∧ s2.w ≠ 1 ∧ s1.w ≠ 1)) :
    tensorSub a a2 = none := by
  obtain ⟨hl2, hm2⟩ := hsa
  obtain ⟨hl1, hm1⟩ := hsa2
  rcases hmis with ⟨hne, hn2, hn1⟩ | ⟨hne, hn2, hn1⟩ |
    ⟨hne, hn2, hn1⟩ | ⟨hne, hn2, hn1⟩
  · exact bzip_none subChan a a2 (by omega) (by omega) (by omega)
  · apply bzip_none_of_all subChan a a2 (by omega) (by omega)
    intro ch2 hch2 ch1 hch1
    obtain ⟨hcl2, -⟩ := hm2 ch2 hch2
    obtain ⟨hcl1, -⟩ := hm1 ch1 hch1
    exact bzip_none subMat ch2 ch1 (by omega) (by omega) (by omega)
  · apply bzip_none_of_all subChan a a2 (by omega) (by omega)
    intro ch2 hch2 ch1 hch1
    obtain ⟨hcl2, hmm2⟩ := hm2 ch2 hch2
    obtain ⟨hcl1, hmm1⟩ := hm1 ch1 hch1
    apply bzip_none_of_all subMat ch2 ch1 (by omega) (by omega)
    intro m2 hm2x m1 hm1x
    obtain ⟨hml2, -⟩ := hmm2 m2 hm2x
    obtain ⟨hml1, -⟩ := hmm1 m1 hm1x
    exact bzip_none subRow m2 m1 (by omega) (by omega) (by omega)
  · apply bzip_none_of_all subChan a a2 (by omega) (by omega)
    intro ch2 hch2 ch1 hch1
    obtain ⟨hcl2, hmm2⟩ := hm2 ch2 hch2
    obtain ⟨hcl1, hmm1⟩ := hm1 ch1 hch1
    apply bzip_none_of_all subMat ch2 ch1 (by omega) (by omega)
    intro m2 hm2x m1 hm1x
    obtain ⟨hml2, hr2⟩ := hmm2 m2 hm2x
    obtain ⟨hml1, hr1⟩ := hmm1 m1 hm1x
    apply bzip_none_of_all subRow m2 m1 (by omega) (by omega)
    intro r2 hr2x r1 hr1x
    have hw2r := hr2 r2 hr2x
    have hw1r := hr1 r1 hr1x
    exact bzip_none (fun u v => some (u - v)) r2 r1
      (by omega) (by omega) (by omega)

lemma fuseEntry_some (op : α → α → Option α) (f1 f2 : List α) (i : Nat)
    (a b : α) (h2 : f2[i]? = some a) (h1 : f1[i]? = some b) :
    fuseEntry op f1 f2 i = op a b := by
  unfold fuseEntry
  rw [h2, h1]

lemma fuseEntry_none₂ (op : α → α → Option α) (f1 f2 : List α) (i : Nat)
    (h2 : f2[i]? = none) : fuseEntry op f1 f2 i = none := by
  unfold fuseEntry
  rw [h2]

lemma getElem?_eq_some_getD (l : List α) (i : Nat) (d : α) (h : i < l.length) :
    l[i]? = some (l.getD i d) := by
  rw [List.getD_eq_getElem?_getD, List.getElem?_eq_getElem h]
  rfl

lemma pyrFuse_eq (op : α → α → Option α) (g : α → α → α) (d : α)
    (f1 f2 : List α) (L : Nat)
    (h1 : f1.length = L) (h2 : L ≤ f2.length) (hL : 0 < L)
    (hop : ∀ i, 1 ≤ i → i < L →
      op (f2.getD i d) (f1.getD i d) = some (g (f2.getD i d) (f1.getD i d))) :
    pyrFuse op f1 f2 = some ((f2.getD 0 d) ::
      (List.range' 1 (L - 1)).map (fun i => g (f2.getD i d) (f1.getD i d))) := by
  subst h1
  have hseq : optSequence ((List.range' 1 (f1.length - 1)).map
      (fuseEntry op f1 f2)) =
      some ((List.range' 1 (f1.length - 1)).map
        (fun i => g (f2.getD i d) (f1.getD i d))) := by
    apply optSequence_map_some
    intro i hi
    rcases List.mem_range'.mp hi with ⟨j, hj, rfl⟩
    have hi1 : 1 ≤ 1 + 1 * j := by omega
    have hi2 : 1 + 1 * j < f1.length := by omega
    rw [fuseEntry_some op f1 f2 (1 + 1 * j) (f2.getD (1 + 1 * j) d)
          (f1.getD (1 + 1 * j) d)
          (getElem?_eq_some_getD f2 (1 + 1 * j) d (by omega))
          (getElem?_eq_some_getD f1 (1 + 1 * j) d (by omega))]
    exact hop (1 + 1 * j) hi1 hi2
  unfold pyrFuse
  rw [hseq, getElem?_eq_some_getD f2 0 d (by omega)]

lemma pyrFuse_none_of_short (op : α → α → Option α) (f1 f2 : List α)
    (h : f2.length < f1.length) : pyrFuse op f1 f2 = none := by
  unfold pyrFuse
  rcases Nat.lt_or_ge f1.length 2 with h2 | h2
  · have hr : f1.length - 1 = 0 := by omega
    have h0 : f2[0]? = (none : Option α) := List.getElem?_eq_none (by omega)
    rw [hr]
    simp [optSequence, h0, List.range']
  · have hi : f1.length - 1 ∈ List.range' 1 (f1.length - 1) :=
      List.mem_range'.mpr ⟨f1.length - 2, by omega, by omega⟩
    have hnone : fuseEntry op f1 f2 (f1.length - 1) = none :=
      fuseEntry_none₂ op f1 f2 (f1.length - 1)
        (List.getElem?_eq_none (by omega))
    have hmem : (none : Option α) ∈ (List.range' 1 (f1.length - 1)).map
        (fuseEntry op f1 f2) :=
      List.mem_map.mpr ⟨f1.length - 1, hi, hnone⟩
    rw [optSequence_none_of_mem _ hmem]

lemma pyrFuse_spec (op : α → α → Option α) (g : α → α → α) (d : α)
    (f1 f2 : List α) (L : Nat)
    (h1 : f1.length = L) (h2 : L ≤ f2.length) (hL : 0 < L)
    (hop : ∀ i, 1 ≤ i → i < L →
      op (f2.getD i d) (f1.getD i d) = some (g (f2.getD i d) (f1.getD i d))) :
    ∃ out, pyrFuse op f1 f2 = some out ∧ out.length = L ∧
      out.getD 0 d = f2.getD 0 d ∧ out[0]? = some (f2.getD 0 d) ∧
      ∀ i, 1 ≤ i → i < L →
        out.getD i d = g (f2.getD i d) (f1.getD i d) := by
  refine ⟨_, pyrFuse_eq op g d f1 f2 L h1 h2 hL hop, ?_, ?_, ?_, ?_⟩
  · simp [List.length_range']
    omega
  · exact List.getD_cons_zero
  · simp
  · intro i hi1 hi2
    obtain ⟨j, rfl⟩ : ∃ j, i = j + 1 := ⟨i - 1, by omega⟩
    rw [List.getD_cons_succ]
    have hjlen : j < ((List.range' 1 (L - 1)).map
        (fun i => g (f2.getD i d) (f1.getD i d))).length := by
      simp [List.length_range']
      omega
    rw [List.getD_eq_getElem?_getD, List.getElem?_eq_getElem hjlen]
    simp only [List.getElem_map, List.getElem_range', Option.getD_some]
    have he : 1 + 1 * j = j + 1 := by omega
    rw [he]

/-! ### Shape lemmas for the data-level tensor operations -/

lemma mem_zipWith {f : α → β → γ} {x : γ} :
    ∀ {a : List α} {b : List β}, x ∈ List.zipWith f a b →
      ∃ p ∈ List.zip a b, x = f p.1 p.2 := by
  intro a
  induction a with
  | nil => intro b h; simp at h
  | cons u us ih =>
    intro b h
    cases b with
    | nil => simp at h
    | cons v vs =>
      rw [List.zipWith_cons_cons] at h
      rcases List.mem_cons.mp h with hx | hx
      · exact ⟨(u, v), by simp [List.zip_cons_cons], hx⟩
      · obtain ⟨p, hp, he⟩ := ih hx
        exact ⟨p, by simp [List.zip_cons_cons, hp], he⟩

lemma mem_zip_self {p : α × α} :
    ∀ {l : List α}, p ∈ List.zip l l → p.1 = p.2 := by
  intro l
  induction l with
  | nil => intro h; simp at h
  | cons x xs ih =>
    intro h
    rw [List.zip_cons_cons] at h
    rcases List.mem_cons.mp h with h | h
    · rw [h]
    · exact ih h

lemma shapeOf_of_hasShape (t : Tensor4) (s : Shape4) (hs : hasShape t s)
    (hb : 0 < s.b) (hc : 0 < s.c) (hh : 0 < s.h) (hw : 0 < s.w) :
    shapeOf t = s := by
  obtain ⟨hlen, hmem⟩ := hs
  cases t with
  | nil => simp at hlen; omega
  | cons ch tl =>
    obtain ⟨hchlen, hchmem⟩ := hmem ch (List.mem_cons_self ch tl)
    cases ch with
    | nil => simp at hchlen; omega
    | cons m ms =>
      obtain ⟨hmlen, hmmem⟩ := hchmem m (List.mem_cons_self m ms)
      cases m with
      | nil => simp at hmlen; omega
      | cons r rs =>
        have hrlen := hmmem r (List.mem_cons_self r rs)
        cases s
        simp only [shapeOf, List.headD_cons, Shape4.mk.injEq]
        exact ⟨hlen, hchlen, hmlen, hrlen⟩

lemma tensorCat_eq (a a2 : Tensor4) (s1 s2 : Shape4)
    (hsa : hasShape a s1) (hsa2 : hasShape a2 s2)
    (hb : s1.b = s2.b) (hh : s1.h = s2.h) (hw : s1.w = s2.w)
    (hb1 : 0 < s1.b) (hc1 : 0 < s1.c) (hc2 : 0 < s2.c)
    (hh1 : 0 < s1.h) (hw1 : 0 < s1.w) :
    tensorCat a a2 = some (List.zipWith (fun ch1 ch2 => ch1 ++ ch2) a a2) := by
  have e1 : shapeOf a = s1 := shapeOf_of_hasShape a s1 hsa hb1 hc1 hh1 hw1
  have e2 : shapeOf a2 = s2 :=
    shapeOf_of_hasShape a2 s2 hsa2 (by omega) hc2 (by omega) (by omega)
  have hcond : hasShape a (shapeOf a) ∧ hasShape a2 (shapeOf a2) ∧
      (shapeOf a).b = (shapeOf a2).b ∧ (shapeOf a).h = (shapeOf a2).h ∧
      (shapeOf a).w = (shapeOf a2).w := by
    rw [e1, e2]
    exact ⟨hsa, hsa2, hb, hh, hw⟩
  unfold tensorCat
  rw [if_pos hcond]

lemma tensorCat_none (a a2 : Tensor4) (s1 s2 : Shape4)
    (hsa : hasShape a s1) (hsa2 : hasShape a2 s2)
    (hmis : s1.b ≠ s2.b ∨ s1.h ≠ s2.h ∨ s1.w ≠ s2.w)
    (hb1 : 0 < s1.b) (hc1 : 0 < s1.c) (hh1 : 0 < s1.h) (hw1 : 0 < s1.w)
    (hb2 : 0 < s2.b) (hc2 : 0 < s2.c) (hh2 : 0 < s2.h) (hw2 : 0 < s2.w) :
    tensorCat a a2 = none := by
  have e1 : shapeOf a = s1 := shapeOf_of_hasShape a s1 hsa hb1 hc1 hh1 hw1
  have e2 : shapeOf a2 = s2 := shapeOf_of_hasShape a2 s2 hsa2 hb2 hc2 hh2 hw2
  have hcond : ¬(hasShape a (shapeOf a) ∧ hasShape a2 (shapeOf a2) ∧
      (shapeOf a).b = (shapeOf a2).b ∧ (shapeOf a).h = (shapeOf a2).h ∧
      (shapeOf a).w = (shapeOf a2).w) := by
    rw [e1, e2]
    rintro ⟨-, -, h1, h2, h3⟩
    rcases hmis with h | h | h <;> exact h (by assumption)
  unfold tensorCat
  rw [if_neg hcond]

lemma hasShape_cat (a a2 : Tensor4) (b c1 c2 h w : Nat)
    (h1 : hasShape a ⟨b, c1, h, w⟩) (h2 : hasShape a2 ⟨b, c2, h, w⟩) :
    hasShape (List.zipWith (fun ch1 ch2 => ch1 ++ ch2) a a2)
      ⟨b, c1 + c2, h, w⟩ := by
  obtain ⟨hl1, hm1⟩ := h1
  obtain ⟨hl2, hm2⟩ := h2
  refine ⟨by simp [List.length_zipWith, hl1, hl2], ?_⟩
  intro ch hch
  obtain ⟨p, hp, rfl⟩ := mem_zipWith hch
  obtain ⟨hp1, hp2⟩ := List.of_mem_zip hp
  obtain ⟨hc1el, hin1⟩ := hm1 p.1 hp1
  obtain ⟨hc2el, hin2⟩ := hm2 p.2 hp2
  refine ⟨by simp [List.length_append, hc1el, hc2el], ?_⟩
  intro m hm
  rcases List.mem_append.mp hm with hmm | hmm
  · exact hin1 m hmm
  · exact hin2 m hmm

/-! ### Broadcasting subtraction on same-shaped tensors -/

lemma sameDims4_refl (a : Tensor4) : sameDims4 a a := by
  refine ⟨rfl, ?_⟩
  intro p hp
  rw [mem_zip_self hp]
  refine ⟨rfl, ?_⟩
  intro q hq
  rw [mem_zip_self hq]
  refine ⟨rfl, ?_⟩
  intro r hr
  rw [mem_zip_self hr]

lemma sameDims4_of_hasShape (a a2 : Tensor4) (s : Shape4)
    (h1 : hasShape a s) (h2 : hasShape a2 s) : sameDims4 a a2 := by
  obtain ⟨hl1, hm1⟩ := h1
  obtain ⟨hl2, hm2⟩ := h2
  refine ⟨hl1.trans hl2.symm, ?_⟩
  intro p hp
  obtain ⟨hp1, hp2⟩ := List.of_mem_zip hp
  obtain ⟨hc1, hin1⟩ := hm1 p.1 hp1
  obtain ⟨hc2, hin2⟩ := hm2 p.2 hp2
  refine ⟨hc1.trans hc2.symm, ?_⟩
  intro q hq
  obtain ⟨hq1, hq2⟩ := List.of_mem_zip hq
  obtain ⟨hh1, hrow1⟩ := hin1 q.1 hq1
  obtain ⟨hh2, hrow2⟩ := hin2 q.2 hq2
  refine ⟨hh1.trans hh2.symm, ?_⟩
  intro r hr
  obtain ⟨hr1, hr2⟩ := List.of_mem_zip hr
  exact (hrow1 r.1 hr1).trans (hrow2 r.2 hr2).symm

lemma subRow_eq (x y : List Int) (h : sameDims1 x y) :
    subRow x y = some (List.zipWith (fun a b : Int => a - b) x y) :=
  bzip_eq _ _ x y h (fun _ _ => rfl)

lemma subMat_eq (x y : List (List Int)) (h : sameDims2 x y) :
    subMat x y = some (List.zipWith (List.zipWith
      (fun a b : Int => a - b)) x y) :=
  bzip_eq _ _ x y h.1 (fun p hp => subRow_eq p.1 p.2 (h.2 p hp))

lemma subChan_eq (x y : T3) (h : sameDims3 x y) :
    subChan x y = some (List.zipWith (List.zipWith (List.zipWith
      (fun a b : Int => a - b))) x y) :=
  bzip_eq _ _ x y h.1 (fun p hp => subMat_eq p.1 p.2 (h.2 p hp))

lemma tensorSub_eq (a b : Tensor4) (h : sameDims4 a b) :
    tensorSub a b = some (zipSub4 a b) :=
  bzip_eq _ _ a b h.1 (fun p hp => subChan_eq p.1 p.2 (h.2 p hp))

lemma tensorSub_self_eq (t : Tensor4) : tensorSub t t = some (zipSub4 t t) :=
  tensorSub_eq t t (sameDims4_refl t)

lemma hasShape_zipSub4 (a a2 : Tensor4) (s : Shape4)
    (h1 : hasShape a s) (h2 : hasShape a2 s) : hasShape (zipSub4 a a2) s := by
  obtain ⟨hl1, hm1⟩ := h1
  obtain ⟨hl2, hm2⟩ := h2
  unfold zipSub4
  refine ⟨by simp [List.length_zipWith, hl1, hl2], ?_⟩
  intro ch hch
  obtain ⟨p, hp, rfl⟩ := mem_zipWith hch
  obtain ⟨hp1, hp2⟩ := List.of_mem_zip hp
  obtain ⟨hc1, hin1⟩ := hm1 p.1 hp1
  obtain ⟨hc2, hin2⟩ := hm2 p.2 hp2
  refine ⟨by simp [List.length_zipWith, hc1, hc2], ?_⟩
  intro m hm
  obtain ⟨q, hq, rfl⟩ := mem_zipWith hm
  obtain ⟨hq1, hq2⟩ := List.of_mem_zip hq
  obtain ⟨hh1, hrow1⟩ := hin1 q.1 hq1
  obtain ⟨hh2, hrow2⟩ := hin2 q.2 hq2
  refine ⟨by simp [List.length_zipWith, hh1, hh2], ?_⟩
  intro r hr
  obtain ⟨u, hu, rfl⟩ := mem_zipWith hr
  obtain ⟨hu1, hu2⟩ := List.of_mem_zip hu
  simp [List.length_zipWith, hrow1 u.1 hu1, hrow2 u.2 hu2]

lemma map_neg_zipSub1 (x y : List Int) :
    (List.zipWith (fun a b : Int => a - b) x y).map (fun a : Int => -a)
      = List.zipWith (fun a b : Int => a - b) y x := by
  rw [List.map_zipWith, List.zipWith_comm (fun a b : Int => a - b) y x]
  congr 1
  funext a b
  ring

lemma map_neg_zipSub2 (x y : List (List Int)) :
    (List.zipWith (List.zipWith (fun a b : Int => a - b)) x y).map
        (List.map (fun a : Int => -a))
      = List.zipWith (List.zipWith (fun a b : Int => a - b)) y x := by
  rw [List.map_zipWith,
      List.zipWith_comm (List.zipWith (fun a b : Int => a - b)) y x]
  congr 1
  funext p q
  exact map_neg_zipSub1 p q

lemma map_neg_zipSub3 (x y : T3) :
    (List.zipWith (List.zipWith (List.zipWith
        (fun a b : Int => a - b))) x y).map
        (List.map (List.map (fun a : Int => -a)))
      = List.zipWith (List.zipWith (List.zipWith
        (fun a b : Int => a - b))) y x := by
  rw [List.map_zipWith,
      List.zipWith_comm (List.zipWith (List.zipWith
        (fun a b : Int => a - b))) y x]
  congr 1
  funext p q
  exact map_neg_zipSub2 p q

lemma neg4_zipSub4 (a b : Tensor4) : neg4 (zipSub4 a b) = zipSub4 b a := by
  unfold neg4 zipSub4
  rw [List.map_zipWith,
      List.zipWith_comm (List.zipWith (List.zipWith (List.zipWith
        (fun x y : Int => x - y)))) b a]
  congr 1
  funext p q
  exact map_neg_zipSub3 p q

lemma zipSub1_self (x : List Int) :
    List.zipWith (fun a b : Int => a - b) x x
      = x.map (fun _ : Int => (0 : Int)) := by
  induction x with
  | nil => rfl
  | cons a l ih => simp [ih]

lemma zipSub2_self (x : List (List Int)) :
    List.zipWith (List.zipWith (fun a b : Int => a - b)) x x
      = x.map (List.map (fun _ : Int => (0 : Int))) := by
  induction x with
  | nil => rfl
  | cons a l ih => simp [ih, zipSub1_self]

lemma zipSub3_self (x : T3) :
    List.zipWith (List.zipWith (List.zipWith
        (fun a b : Int => a - b))) x x
      = x.map (List.map (List.map (fun _ : Int => (0 : Int)))) := by
  induction x with
  | nil => rfl
  | cons a l ih => simp [ih, zipSub2_self]

lemma zipSub4_self (t : Tensor4) : zipSub4 t t = zeroLike4 t := by
  unfold zipSub4 zeroLike4
  induction t with
  | nil => rfl
  | cons a l ih => simp [ih, zipSub3_self]

/-! ### Lemmas for the shape-level forward model -/

lemma catShape_self (s : Shape4) :
    catShape s s = some ⟨s.b, s.c + s.c, s.h, s.w⟩ := by
  unfold catShape
  rw [if_pos ⟨rfl, rfl, rfl⟩]

lemma broadcastDim_self (n : Nat) : broadcastDim n n = some n := by
  unfold broadcastDim
  rw [if_pos rfl]

lemma subShape_self (s : Shape4) : subShape s s = some s := by
  unfold subShape
  rw [broadcastDim_self, broadcastDim_self, broadcastDim_self,
      broadcastDim_self]

lemma decoderShape_cons (dc : List Nat) (f0 : Shape4) (rest : List Shape4) :
    decoderShape dc (f0 :: rest) =
      some ⟨f0.b, dc.getLastD 0, f0.h, f0.w⟩ := by
  unfold decoderShape
  rw [List.getElem?_cons_zero]

lemma encoderPyramid_length (oc : List Nat) (x : Shape4) :
    (encoderPyramid oc x).length = oc.length := by
  simp [encoderPyramid]

lemma encoderPyramid_getD_zero (oc : List Nat) (x : Shape4)
    (h : 0 < oc.length) :
    (encoderPyramid oc x).getD 0 ⟨0, 0, 0, 0⟩ =
      ⟨x.b, oc.getD 0 0, x.h, x.w⟩ := by
  have hp0 : 0 < (encoderPyramid oc x).length := by
    rw [encoderPyramid_length]
    exact h
  rw [List.getD_eq_getElem?_getD, List.getElem?_eq_getElem hp0]
  simp [encoderPyramid, List.getElem_map, List.getElem_range]

/-! ### Claim theorems -/

/-- Claim C1: for every pair of feature pyramids of equal level count `L`
(with positive dimensions and pairwise-equal per-level spatial shapes), the
concatenation-fusion step of `FCSiamConc.forward` produces a pyramid of
length `L` whose level 0 is the level-0 map of T1 unchanged and whose level
`i ≥ 1` is the channel-wise concatenation of the level-`i` maps of T1 and
then T0 (T1 first), so the fused channel count is the sum of the channel
counts of both inputs at that level. -/
theorem concFusion_spec (f1 f2 : List Tensor4) (L b : Nat)
    (c1 c2 h w : Nat → Nat)
    (h1 : f1.length = L) (h2 : f2.length = L) (hL : 0 < L) (hb : 0 < b)
    (hdims : ∀ i, i < L → 0 < c1 i ∧ 0 < c2 i ∧ 0 < h i ∧ 0 < w i)
    (hs1 : ∀ i, i < L → hasShape (f1.getD i []) ⟨b, c1 i, h i, w i⟩)
    (hs2 : ∀ i, i < L → hasShape (f2.getD i []) ⟨b, c2 i, h i, w i⟩) :
    ∃ out, concFuse f1 f2 = some out ∧ out.length = L ∧
      out.getD 0 [] = f2.getD 0 [] ∧
      ∀ i, 1 ≤ i → i < L →
        out.getD i [] = List.zipWith (fun ch2 ch1 => ch2 ++ ch1)
          (f2.getD i []) (f1.getD i []) ∧
        hasShape (out.getD i []) ⟨b, c2 i + c1 i, h i, w i⟩ := by
  have hop : ∀ i, 1 ≤ i → i < L →
      tensorCat (f2.getD i []) (f1.getD i []) =
        some (List.zipWith (fun ch2 ch1 => ch2 ++ ch1)
          (f2.getD i []) (f1.getD i [])) := by
    intro i hi1 hi2
    obtain ⟨hc1, hc2, hhp, hwp⟩ := hdims i hi2
    exact tensorCat_eq (f2.getD i []) (f1.getD i [])
      ⟨b, c2 i, h i, w i⟩ ⟨b, c1 i, h i, w i⟩
      (hs2 i hi2) (hs1 i hi2) rfl rfl rfl hb hc2 hc1 hhp hwp
  obtain ⟨out, hfuse, hlen, h0, -, hi⟩ :=
    pyrFuse_spec tensorCat
      (fun t2 t1 => List.zipWith (fun ch2 ch1 => ch2 ++ ch1) t2 t1)
      [] f1 f2 L h1 h2.ge hL hop
  refine ⟨out, hfuse, hlen, h0, ?_⟩
  intro i hi1 hi2
  refine ⟨hi i hi1 hi2, ?_⟩
  rw [hi i hi1 hi2]
  exact hasShape_cat (f2.getD i []) (f1.getD i [])
    b (c2 i) (c1 i) (h i) (w i) (hs2 i hi2) (hs1 i hi2)

/-- Witness for C1 at a concrete pair of two-level pyramids. -/
theorem concFusion_spec_witness :
    ∃ out, concFuse [[[[[1]]]], [[[[2]]]]] [[[[[3]]]], [[[[4]]]]] = some out ∧
      out.length = 2 ∧
      out.getD 0 [] = ([[[[[3]]]], [[[[4]]]]] : List Tensor4).getD 0 [] ∧
      ∀ i, 1 ≤ i → i < 2 →
        out.getD i [] = List.zipWith (fun ch2 ch1 => ch2 ++ ch1)
          (([[[[[3]]]], [[[[4]]]]] : List Tensor4).getD i [])
          (([[[[[1]]]], [[[[2]]]]] : List Tensor4).getD i []) ∧
        hasShape (out.getD i []) ⟨1, 2, 1, 1⟩ :=
  concFusion_spec [[[[[1]]]], [[[[2]]]]] [[[[[3]]]], [[[[4]]]]] 2 1
    (fun _ => 1) (fun _ => 1) (fun _ => 1) (fun _ => 1)
    rfl rfl (by decide) (by decide)
    (by intro i _; exact ⟨Nat.one_pos, Nat.one_pos, Nat.one_pos, Nat.one_pos⟩)
    (by intro i hi; interval_cases i <;> decide)
    (by intro i hi; interval_cases i <;> decide)

/-- Claim C2: for every pair of feature pyramids of equal level count `L`
with pairwise-equal per-level shapes, the difference-fusion step of
`FCSiamDiff.forward` produces a pyramid of length `L` whose level 0 is the
level-0 map of T1 unchanged and whose level `i ≥ 1` is the elementwise
subtraction T1 level `i` minus T0 level `i`, preserving the channel count
of each level. -/
theorem diffFusion_spec (f1 f2 : List Tensor4) (L b : Nat) (c h w : Nat → Nat)
    (h1 : f1.length = L) (h2 : f2.length = L) (hL : 0 < L)
    (hs1 : ∀ i, i < L → hasShape (f1.getD i []) ⟨b, c i, h i, w i⟩)
    (hs2 : ∀ i, i < L → hasShape (f2.getD i []) ⟨b, c i, h i, w i⟩) :
    ∃ out, diffFuse f1 f2 = some out ∧ out.length = L ∧
      out.getD 0 [] = f2.getD 0 [] ∧
      ∀ i, 1 ≤ i → i < L →
        out.getD i [] = zipSub4 (f2.getD i []) (f1.getD i []) ∧
        hasShape (out.getD i []) ⟨b, c i, h i, w i⟩ := by
  have hop : ∀ i, 1 ≤ i → i < L →
      tensorSub (f2.getD i []) (f1.getD i []) =
        some (zipSub4 (f2.getD i []) (f1.getD i [])) :=
    fun i _ hi2 => tensorSub_eq _ _
      (sameDims4_of_hasShape _ _ ⟨b, c i, h i, w i⟩ (hs2 i hi2) (hs1 i hi2))
  obtain ⟨out, hfuse, hlen, h0, -, hi⟩ :=
    pyrFuse_spec tensorSub zipSub4 [] f1 f2 L h1 h2.ge hL hop
  refine ⟨out, hfuse, hlen, h0, ?_⟩
  intro i hi1 hi2
  refine ⟨hi i hi1 hi2, ?_⟩
  rw [hi i hi1 hi2]
  exact hasShape_zipSub4 _ _ _ (hs2 i hi2) (hs1 i hi2)

/-- Witness for C2 at a concrete pair of two-level pyramids. -/
theorem diffFusion_spec_witness :
    ∃ out, diffFuse [[[[[1]]]], [[[[2]]]]] [[[[[3]]]], [[[[4]]]]] = some out ∧
      out.length = 2 ∧
      out.getD 0 [] = ([[[[[3]]]], [[[[4]]]]] : List Tensor4).getD 0 [] ∧
      ∀ i, 1 ≤ i → i < 2 →
        out.getD i [] = zipSub4
          (([[[[[3]]]], [[[[4]]]]] : List Tensor4).getD i [])
          (([[[[[1]]]], [[[[2]]]]] : List Tensor4).getD i []) ∧
        hasShape (out.getD i []) ⟨1, 1, 1, 1⟩ :=
  diffFusion_spec [[[[[1]]]], [[[[2]]]]] [[[[[3]]]], [[[[4]]]]] 2 1
    (fun _ => 1) (fun _ => 1) (fun _ => 1)
    rfl rfl (by decide)
    (by intro i hi; interval_cases i <;> decide)
    (by intro i hi; interval_cases i <;> decide)

/-- Claim C3: the difference-fusion rule is anti-symmetric in the two input
pyramids: for every pair of same-shaped feature pyramids, swapping the T0
and T1 pyramids negates every fused level `i ≥ 1` of the output, while the
passed-through level 0 becomes the level 0 of the other pyramid. -/
theorem diffFusion_antisymm (f1 f2 : List Tensor4) (L : Nat)
    (s : Nat → Shape4)
    (h1 : f1.length = L) (h2 : f2.length = L) (hL : 0 < L)
    (hs1 : ∀ i, i < L → hasShape (f1.getD i []) (s i))
    (hs2 : ∀ i, i < L → hasShape (f2.getD i []) (s i)) :
    ∃ out swapped, diffFuse f1 f2 = some out ∧
      diffFuse f2 f1 = some swapped ∧
      out.length = L ∧ swapped.length = L ∧
      out.getD 0 [] = f2.getD 0 [] ∧ swapped.getD 0 [] = f1.getD 0 [] ∧
      ∀ i, 1 ≤ i → i < L → swapped.getD i [] = neg4 (out.getD i []) := by
  have hop12 : ∀ i, 1 ≤ i → i < L →
      tensorSub (f2.getD i []) (f1.getD i []) =
        some (zipSub4 (f2.getD i []) (f1.getD i [])) :=
    fun i _ hi2 => tensorSub_eq _ _
      (sameDims4_of_hasShape _ _ (s i) (hs2 i hi2) (hs1 i hi2))
  have hop21 : ∀ i, 1 ≤ i → i < L →
      tensorSub (f1.getD i []) (f2.getD i []) =
        some (zipSub4 (f1.getD i []) (f2.getD i [])) :=
    fun i _ hi2 => tensorSub_eq _ _
      (sameDims4_of_hasShape _ _ (s i) (hs1 i hi2) (hs2 i hi2))
  obtain ⟨out, e1, l1, g1, -, hi1⟩ :=
    pyrFuse_spec tensorSub zipSub4 [] f1 f2 L h1 h2.ge hL hop12
  obtain ⟨swapped, e2, l2, g2, -, hi2⟩ :=
    pyrFuse_spec tensorSub zipSub4 [] f2 f1 L h2 h1.ge hL hop21
  refine ⟨out, swapped, e1, e2, l1, l2, g1, g2, ?_⟩
  intro i hia hib
  rw [hi2 i hia hib, hi1 i hia hib, neg4_zipSub4]

/-- Witness for C3 at a concrete pair of two-level pyramids. -/
theorem diffFusion_antisymm_witness :
    ∃ out swapped,
      diffFuse [[[[[1]]]], [[[[2]]]]] [[[[[3]]]], [[[[4]]]]] = some out ∧
      diffFuse [[[[[3]]]], [[[[4]]]]] [[[[[1]]]], [[[[2]]]]] = some swapped ∧
      out.length = 2 ∧ swapped.length = 2 ∧
      out.getD 0 [] = ([[[[[3]]]], [[[[4]]]]] : List Tensor4).getD 0 [] ∧
      swapped.getD 0 [] = ([[[[[1]]]], [[[[2]]]]] : List Tensor4).getD 0 [] ∧
      ∀ i, 1 ≤ i → i < 2 → swapped.getD i [] = neg4 (out.getD i []) :=
  diffFusion_antisymm [[[[[1]]]], [[[[2]]]]] [[[[[3]]]], [[[[4]]]]] 2
    (fun _ => ⟨1, 1, 1, 1⟩) rfl rfl (by decide)
    (by intro i hi; interval_cases i <;> decide)
    (by intro i hi; interval_cases i <;> decide)

/-- Claim C10: because one shared encoder is applied to both time slices,
for every Bitemporal Batch whose two time slices are equal, the
difference-fusion pyramid computed inside `FCSiamDiff.forward` has every
fused level `i ≥ 1` equal to the all-zero tensor, and its level 0 equals
the level-0 output of the encoder for that slice. -/
theorem sharedEncoder_zero_diff (enc : Tensor4 → List Tensor4)
    (x : Tensor5) (x1 : Tensor4)
    (h0 : sliceTime x 0 = some x1) (h1 : sliceTime x 1 = some x1)
    (hL : 0 < (enc x1).length) :
    ∃ out, fcSiamDiffFusedPyramid enc x = some out ∧
      out.length = (enc x1).length ∧
      out.getD 0 [] = (enc x1).getD 0 [] ∧
      ∀ i, 1 ≤ i → i < (enc x1).length →
        out.getD i [] = zeroLike4 ((enc x1).getD i []) := by
  have hop : ∀ i, 1 ≤ i → i < (enc x1).length →
      tensorSub ((enc x1).getD i []) ((enc x1).getD i []) =
        some (zipSub4 ((enc x1).getD i []) ((enc x1).getD i [])) :=
    fun i _ _ => tensorSub_self_eq _
  obtain ⟨out, e, l, g, -, hi⟩ :=
    pyrFuse_spec tensorSub zipSub4 [] (enc x1) (enc x1) (enc x1).length
      rfl le_rfl hL hop
  refine ⟨out, ?_, l, g, ?_⟩
  · unfold fcSiamDiffFusedPyramid
    rw [h0, h1]
    exact e
  · intro i hi1 hi2
    rw [hi i hi1 hi2, zipSub4_self]

/-- Witness for C10 at a concrete batch with equal time slices. -/
theorem sharedEncoder_zero_diff_witness :
    ∃ out, fcSiamDiffFusedPyramid (fun t => [t, t])
        [[[[[5]]], [[[5]]]]] = some out ∧
      out.length = 2 ∧
      out.getD 0 [] = ([[[[[5]]]], [[[[5]]]]] : List Tensor4).getD 0 [] ∧
      ∀ i, 1 ≤ i → i < 2 →
        out.getD i [] =
          zeroLike4 (([[[[[5]]]], [[[[5]]]]] : List Tensor4).getD i []) :=
  sharedEncoder_zero_diff (fun t => [t, t]) [[[[[5]]], [[[5]]]]]
    [[[[5]]]] rfl rfl (by decide)

/-- Claim C4: at `FCSiamConc` construction, for every encoder whose
`out_channels` list is non-empty, the encoder-channel configuration
of the decoder equals the level-0 channel count of the encoder and twice
each remaining channel count, matching the channel doubling performed by
concatenation fusion at levels ≥ 1 (the fused channel count of a level is the
sum of the two equal input channel counts) while level 0 is unchanged. -/
theorem concDecoderChannels_spec (c0 : Nat) (rest : List Nat) :
    concDecoderEncoderChannels (c0 :: rest) =
      some (c0 :: rest.map (fun c => c * 2)) ∧
    (c0 :: rest.map (fun c => c * 2)).getD 0 0 = (c0 :: rest).getD 0 0 ∧
    ∀ i, 1 ≤ i → i < (c0 :: rest).length →
      (c0 :: rest.map (fun c => c * 2)).getD i 0 =
        (c0 :: rest).getD i 0 + (c0 :: rest).getD i 0 := by
  refine ⟨?_, ?_, ?_⟩
  · unfold concDecoderEncoderChannels
    rw [List.getElem?_cons_zero]
    rfl
  · rw [List.getD_cons_zero, List.getD_cons_zero]
  intro i hi1 hi2
  obtain ⟨j, rfl⟩ : ∃ j, i = j + 1 := ⟨i - 1, by omega⟩
  rw [List.getD_cons_succ, List.getD_cons_succ]
  have hj : j < rest.length := by
    simp only [List.length_cons] at hi2
    omega
  have hjm : j < (rest.map (fun c => c * 2)).length := by
    simp [hj]
  rw [List.getD_eq_getElem?_getD, List.getElem?_eq_getElem hjm,
      List.getD_eq_getElem?_getD, List.getElem?_eq_getElem hj]
  simp only [List.getElem_map, Option.getD_some]
  omega

/-- Witness for C4 at the concrete channel list `[3, 64, 128]`. -/
theorem concDecoderChannels_spec_witness :
    concDecoderEncoderChannels [3, 64, 128] = some [3, 128, 256] ∧
    ([3, 128, 256] : List Nat).getD 0 0 = ([3, 64, 128] : List Nat).getD 0 0 ∧
    ∀ i, 1 ≤ i → i < ([3, 64, 128] : List Nat).length →
      ([3, 128, 256] : List Nat).getD i 0 =
        ([3, 64, 128] : List Nat).getD i 0 +
          ([3, 64, 128] : List Nat).getD i 0 :=
  concDecoderChannels_spec 3 [64, 128]

/-- Claim C5: for every Bitemporal Batch of shape (B, 2, C, H, W) and every
configuration (any positive number of encoder levels, any decoder channel
list, any class count), the forward pass of both `FCSiamConc` and
`FCSiamDiff` produces an output of shape (B, classes, H, W). -/
theorem forward_output_shape (B C H W classes : Nat)
    (outChannels decoderChannels : List Nat)
    (hoc : 0 < outChannels.length) :
    fcSiamConcForwardShape C outChannels decoderChannels classes
        ⟨B, 2, C, H, W⟩ = some ⟨B, classes, H, W⟩ ∧
    fcSiamDiffForwardShape C outChannels decoderChannels classes
        ⟨B, 2, C, H, W⟩ = some ⟨B, classes, H, W⟩ := by
  have e0 : sliceShape ⟨B, 2, C, H, W⟩ 0 = some ⟨B, C, H, W⟩ := rfl
  have e1 : sliceShape ⟨B, 2, C, H, W⟩ 1 = some ⟨B, C, H, W⟩ := rfl
  have henc : encoderShapes C outChannels ⟨B, C, H, W⟩ =
      some (encoderPyramid outChannels ⟨B, C, H, W⟩) := by
    unfold encoderShapes
    rw [if_pos rfl]
  have hplen := encoderPyramid_length outChannels (⟨B, C, H, W⟩ : Shape4)
  have hget0 := encoderPyramid_getD_zero outChannels
    (⟨B, C, H, W⟩ : Shape4) hoc
  constructor
  · have hfuse := pyrFuse_eq catShape
      (fun s2 s1 => (⟨s2.b, s2.c + s1.c, s2.h, s2.w⟩ : Shape4)) ⟨0, 0, 0, 0⟩
      (encoderPyramid outChannels ⟨B, C, H, W⟩)
      (encoderPyramid outChannels ⟨B, C, H, W⟩)
      outChannels.length hplen hplen.ge hoc (fun i _ _ => catShape_self _)
    unfold fcSiamConcForwardShape concFuseShape
    simp only [e0, e1, henc, hfuse, Option.some_bind, decoderShape_cons,
      hget0]
    rfl
  · have hfuse := pyrFuse_eq subShape (fun s2 _ => s2) ⟨0, 0, 0, 0⟩
      (encoderPyramid outChannels ⟨B, C, H, W⟩)
      (encoderPyramid outChannels ⟨B, C, H, W⟩)
      outChannels.length hplen hplen.ge hoc (fun i _ _ => subShape_self _)
    unfold fcSiamDiffForwardShape diffFuseShape
    simp only [e0, e1, henc, hfuse, Option.some_bind, decoderShape_cons,
      hget0]
    rfl

/-- Witness for C5 at the concrete scenario of the spec: B = 2, C = 3,
H = W = 64, classes = 1, the resnet34 encoder at depth 5 (six channel
levels) and the default decoder channels. -/
theorem forward_output_shape_witness :
    fcSiamConcForwardShape 3 [3, 64, 64, 128, 256, 512]
        [256, 128, 64, 32, 16] 1 ⟨2, 2, 3, 64, 64⟩ =
      some ⟨2, 1, 64, 64⟩ ∧
    fcSiamDiffForwardShape 3 [3, 64, 64, 128, 256, 512]
        [256, 128, 64, 32, 16] 1 ⟨2, 2, 3, 64, 64⟩ =
      some ⟨2, 1, 64, 64⟩ :=
  forward_output_shape 2 3 64 64 1 [3, 64, 64, 128, 256, 512]
    [256, 128, 64, 32, 16] (by decide)

lemma pyrFuse_none_of_entry (op : α → α → Option α) (f1 f2 : List α)
    (i : Nat) (hi1 : 1 ≤ i) (hi2 : i < f1.length)
    (hent : fuseEntry op f1 f2 i = none) : pyrFuse op f1 f2 = none := by
  unfold pyrFuse
  have hi : i ∈ List.range' 1 (f1.length - 1) :=
    List.mem_range'.mpr ⟨i - 1, by omega, by omega⟩
  have hmem : (none : Option α) ∈ (List.range' 1 (f1.length - 1)).map
      (fuseEntry op f1 f2) :=
    List.mem_map.mpr ⟨i, hi, hent⟩
  rw [optSequence_none_of_mem _ hmem]

/-- Claim C6 (amended): both fusion steps fail when the T1 pyramid has
fewer levels than the T0 pyramid; when T1 has at least as many levels and
every compared level is pairwise same-shaped (positive dimensions), both
steps succeed and any extra T1 levels are silently ignored, the output
having the level count of T0. On a compared level, concatenation fusion
fails whenever the batch or spatial dimensions differ; difference fusion
fails when some dimension pair differs with neither size equal to 1
(non-broadcastable), but a size-1 mismatch is silently broadcast rather
than rejected — see the counterexample for both silent behaviours. -/
theorem fusion_mismatch_behavior (f1 f2 : List Tensor4) (b : Nat)
    (c h w : Nat → Nat) (i0 : Nat) (s1 s2 : Shape4) :
    (f2.length < f1.length →
      concFuse f1 f2 = none ∧ diffFuse f1 f2 = none) ∧
    ((0 < f1.length ∧ f1.length ≤ f2.length ∧ 0 < b ∧
      (∀ i, i < f1.length → 0 < c i ∧ 0 < h i ∧ 0 < w i ∧
        hasShape (f1.getD i []) ⟨b, c i, h i, w i⟩ ∧
        hasShape (f2.getD i []) ⟨b, c i, h i, w i⟩)) →
      ∃ outc outd, concFuse f1 f2 = some outc ∧ diffFuse f1 f2 = some outd ∧
        outc.length = f1.length ∧ outd.length = f1.length) ∧
    ((1 ≤ i0 ∧ i0 < f1.length ∧ i0 < f2.length ∧
      hasShape (f1.getD i0 []) s1 ∧ hasShape (f2.getD i0 []) s2 ∧
      0 < s1.b ∧ 0 < s1.c ∧ 0 < s1.h ∧ 0 < s1.w ∧
      0 < s2.b ∧ 0 < s2.c ∧ 0 < s2.h ∧ 0 < s2.w ∧
      (s2.b ≠ s1.b ∨ s2.h ≠ s1.h ∨ s2.w ≠ s1.w)) →
      concFuse f1 f2 = none) ∧
    ((1 ≤ i0 ∧ i0 < f1.length ∧ i0 < f2.length ∧
      hasShape (f1.getD i0 []) s1 ∧ hasShape (f2.getD i0 []) s2 ∧
      0 < s1.b ∧ 0 < s1.c ∧ 0 < s1.h ∧ 0 < s1.w ∧
      0 < s2.b ∧ 0 < s2.c ∧ 0 < s2.h ∧ 0 < s2.w ∧
      ((s2.b ≠ s1.b ∧ s2.b ≠ 1 ∧ s1.b ≠ 1) ∨
       (s2.c ≠ s1.c ∧ s2.c ≠ 1 ∧ s1.c ≠ 1) ∨
       (s2.h ≠ s1.h ∧ s2.h ≠ 1 ∧ s1.h ≠ 1) ∨
       (s2.w ≠ s1.w ∧ s2.w ≠ 1 ∧ s1.w ≠ 1))) →
      diffFuse f1 f2 = none) := by
  refine ⟨?_, ?_, ?_, ?_⟩
  · intro hlt
    exact ⟨pyrFuse_none_of_short tensorCat f1 f2 hlt,
           pyrFuse_none_of_short tensorSub f1 f2 hlt⟩
  · rintro ⟨hpos, hle, hb, hsh⟩
    have hopc : ∀ i, 1 ≤ i → i < f1.length →
        tensorCat (f2.getD i []) (f1.getD i []) =
          some (List.zipWith (fun ch2 ch1 => ch2 ++ ch1)
            (f2.getD i []) (f1.getD i [])) := by
      intro i _ hi2
      obtain ⟨hc, hhp, hwp, hs1, hs2⟩ := hsh i hi2
      exact tensorCat_eq _ _ ⟨b, c i, h i, w i⟩ ⟨b, c i, h i, w i⟩
        hs2 hs1 rfl rfl rfl hb hc hc hhp hwp
    have hopd : ∀ i, 1 ≤ i → i < f1.length →
        tensorSub (f2.getD i []) (f1.getD i []) =
          some (zipSub4 (f2.getD i []) (f1.getD i [])) := by
      intro i _ hi2
      obtain ⟨hc, hhp, hwp, hs1, hs2⟩ := hsh i hi2
      exact tensorSub_eq _ _
        (sameDims4_of_hasShape _ _ ⟨b, c i, h i, w i⟩ hs2 hs1)
    obtain ⟨outc, ec, lc, -⟩ := pyrFuse_spec tensorCat
      (fun t2 t1 => List.zipWith (fun ch2 ch1 => ch2 ++ ch1) t2 t1)
      [] f1 f2 f1.length rfl hle hpos hopc
    obtain ⟨outd, ed, ld, -⟩ :=
      pyrFuse_spec tensorSub zipSub4 [] f1 f2 f1.length rfl hle hpos hopd
    exact ⟨outc, outd, ec, ed, lc, ld⟩
  · rintro ⟨hi1, hi2, hi3, hsh1, hsh2, q1, q2, q3, q4, q5, q6, q7, q8, hmis⟩
    apply pyrFuse_none_of_entry tensorCat f1 f2 i0 hi1 hi2
    rw [fuseEntry_some tensorCat f1 f2 i0 (f2.getD i0 []) (f1.getD i0 [])
          (getElem?_eq_some_getD f2 i0 [] hi3)
          (getElem?_eq_some_getD f1 i0 [] hi2)]
    exact tensorCat_none (f2.getD i0 []) (f1.getD i0 []) s2 s1
      hsh2 hsh1 hmis q5 q6 q7 q8 q1 q2 q3 q4
  · rintro ⟨hi1, hi2, hi3, hsh1, hsh2, q1, q2, q3, q4, q5, q6, q7, q8, hmis⟩
    apply pyrFuse_none_of_entry tensorSub f1 f2 i0 hi1 hi2
    rw [fuseEntry_some tensorSub f1 f2 i0 (f2.getD i0 []) (f1.getD i0 [])
          (getElem?_eq_some_getD f2 i0 [] hi3)
          (getElem?_eq_some_getD f1 i0 [] hi2)]
    exact tensorSub_none (f2.getD i0 []) (f1.getD i0 []) s2 s1
      hsh2 hsh1 q5 q6 q7 q1 q2 q3 hmis

/-- Witness for the amended C6 at concrete pyramids: a shorter T1 pyramid
fails, a longer well-shaped T1 pyramid succeeds with the extra level
ignored (output length 2), a T1 level of different spatial height fails
under concatenation, and a non-broadcastable height pair (2 against 3)
fails under difference fusion. -/
theorem fusion_mismatch_behavior_witness :
    (concFuse [[[[[1]]]], [[[[1]]]]] [[[[[1]]]]] = none ∧
     diffFuse [[[[[1]]]], [[[[1]]]]] [[[[[1]]]]] = none) ∧
    (∃ outc outd,
      concFuse [[[[[1]]]], [[[[1]]]]]
        [[[[[1]]]], [[[[1]]]], [[[[1]]]]] = some outc ∧
      diffFuse [[[[[1]]]], [[[[1]]]]]
        [[[[[1]]]], [[[[1]]]], [[[[1]]]]] = some outd ∧
      outc.length = ([[[[[1]]]], [[[[1]]]]] : List Tensor4).length ∧
      outd.length = ([[[[[1]]]], [[[[1]]]]] : List Tensor4).length) ∧
    concFuse [[[[[1]]]], [[[[1]]]]] [[[[[1]]]], [[[[1], [1]]]]] = none ∧
    diffFuse [[[[[1]]]], [[[[1], [1]]]]]
      [[[[[1]]]], [[[[1], [1], [1]]]]] = none := by
  refine ⟨?_, ?_, ?_, ?_⟩
  · exact (fusion_mismatch_behavior [[[[[1]]]], [[[[1]]]]] [[[[[1]]]]] 1
      (fun _ => 1) (fun _ => 1) (fun _ => 1) 1
      ⟨1, 1, 1, 1⟩ ⟨1, 1, 1, 1⟩).1 (by decide)
  · exact (fusion_mismatch_behavior [[[[[1]]]], [[[[1]]]]]
      [[[[[1]]]], [[[[1]]]], [[[[1]]]]] 1
      (fun _ => 1) (fun _ => 1) (fun _ => 1) 1
      ⟨1, 1, 1, 1⟩ ⟨1, 1, 1, 1⟩).2.1
      ⟨by decide, by decide, by decide, by
        intro i hi
        have h2 : i < 2 := by simpa using hi
        interval_cases i <;>
          exact ⟨by decide, by decide, by decide, by decide, by decide⟩⟩
  · exact (fusion_mismatch_behavior [[[[[1]]]], [[[[1]]]]]
      [[[[[1]]]], [[[[1], [1]]]]] 1 (fun _ => 1) (fun _ => 1) (fun _ => 1) 1
      ⟨1, 1, 1, 1⟩ ⟨1, 1, 2, 1⟩).2.2.1
      ⟨by decide, by decide, by decide, by decide, by decide, by decide,
       by decide, by decide, by decide, by decide, by decide, by decide,
       by decide, by decide⟩
  · exact (fusion_mismatch_behavior [[[[[1]]]], [[[[1], [1]]]]]
      [[[[[1]]]], [[[[1], [1], [1]]]]] 1
      (fun _ => 1) (fun _ => 1) (fun _ => 1) 1
      ⟨1, 1, 2, 1⟩ ⟨1, 1, 3, 1⟩).2.2.2
      ⟨by decide, by decide, by decide, by decide, by decide, by decide,
       by decide, by decide, by decide, by decide, by decide, by decide,
       by decide, by decide⟩

/-- Claim C6 counterexample, refuting both universal error conditions of
the claim. First, a pair of pyramids of differing level counts (T0 has one
level, T1 has two) on which both fusion steps succeed instead of failing —
the extra T1 level is silently ignored. Second, a pair whose compared
level has incompatible spatial shapes (height 2 for T0 against height 1
for T1): difference fusion silently broadcasts the size-1 height and
succeeds, while concatenation fusion on the same pair fails. -/
theorem fusion_mismatch_counterexample :
    (([[[[[1]]]]] : List Tensor4).length ≠
      ([[[[[1]]]], [[[[1]]]]] : List Tensor4).length ∧
     (concFuse [[[[[1]]]]] [[[[[1]]]], [[[[1]]]]]).isSome = true ∧
     (diffFuse [[[[[1]]]]] [[[[[1]]]], [[[[1]]]]]).isSome = true) ∧
    ((diffFuse [[[[[1]]]], [[[[1], [1]]]]]
        [[[[[1]]]], [[[[7]]]]]).isSome = true ∧
     concFuse [[[[[1]]]], [[[[1], [1]]]]] [[[[[1]]]], [[[[7]]]]] = none) := by
  decide

lemma logMetricsLoop_snd (ts : Int) (step : Option Nat) :
    ∀ l : List (String × MetricValue),
      (logMetricsLoop ts step l).2 = l.filterMap (fun kv =>
        match kv.2 with
        | MetricValue.str _ => none
        | MetricValue.num n =>
          some ⟨sanitizeMetricName kv.1, n, ts, step.getD 0⟩) := by
  intro l
  induction l with
  | nil => rfl
  | cons kv rest ih =>
    obtain ⟨k, v⟩ := kv
    cases v with
    | str s => simp [logMetricsLoop, List.filterMap_cons, ih]
    | num n =>
      by_cases hk : k = sanitizeMetricName k
      · have hne : ¬(k ≠ sanitizeMetricName k) := by simpa using hk
        simp only [logMetricsLoop, if_neg hne, List.filterMap_cons, ih]
        rw [← hk]
      · have hne : k ≠ sanitizeMetricName k := hk
        simp only [logMetricsLoop, if_pos hne, List.filterMap_cons, ih]

lemma logMetricsLoop_fst (ts : Int) (step : Option Nat) :
    ∀ l : List (String × MetricValue),
      (logMetricsLoop ts step l).1 = l.filterMap (fun kv =>
        match kv.2 with
        | MetricValue.str s => some (LogEvent.warnDiscard kv.1 s)
        | MetricValue.num _ =>
          if kv.1 ≠ sanitizeMetricName kv.1
          then some (LogEvent.warnRename kv.1 (sanitizeMetricName kv.1))
          else none) := by
  intro l
  induction l with
  | nil => rfl
  | cons kv rest ih =>
    obtain ⟨k, v⟩ := kv
    cases v with
    | str s => simp [logMetricsLoop, List.filterMap_cons, ih]
    | num n =>
      by_cases hk : k = sanitizeMetricName k
      · have hne : ¬(k ≠ sanitizeMetricName k) := by simpa using hk
        simp only [logMetricsLoop, if_neg hne, List.filterMap_cons, ih]
      · have hne : k ≠ sanitizeMetricName k := hk
        simp only [logMetricsLoop, if_pos hne, List.filterMap_cons, ih]

/-- Claim C7: for every metric name of a numeric entry, the logged key is
the name with every character outside `[a-zA-Z0-9_/. -]` stripped (so the
logged key contains only allowed characters, and a name of only allowed
characters is left unchanged); a rename warning is emitted exactly when at
least one character was stripped; `"loss/val step-1"` is logged unchanged
and `"loss@val#1"` is logged as `"lossval1"`. -/
theorem logMetrics_sanitizes (ts : Int) (step : Option Nat)
    (metrics : List (String × MetricValue)) (k : String) (n : Int)
    (hmem : (k, MetricValue.num n) ∈ metrics) :
    (⟨sanitizeMetricName k, n, ts, step.getD 0⟩ : LoggedMetric) ∈
      (logMetricsLoop ts step metrics).2 ∧
    (∀ c ∈ (sanitizeMetricName k).data, allowedMetricChar c = true) ∧
    ((∀ c ∈ k.data, allowedMetricChar c = true) →
      sanitizeMetricName k = k) ∧
    (LogEvent.warnRename k (sanitizeMetricName k) ∈
        (logMetricsLoop ts step metrics).1 ↔ k ≠ sanitizeMetricName k) ∧
    sanitizeMetricName ("loss/val step-1") = "loss/val step-1" ∧
    sanitizeMetricName ("loss@val#1") = "lossval1" := by
  refine ⟨?_, ?_, ?_, ?_, by decide, by decide⟩
  · rw [logMetricsLoop_snd]
    exact List.mem_filterMap.mpr ⟨(k, MetricValue.num n), hmem, rfl⟩
  · intro c hc
    unfold sanitizeMetricName at hc
    exact (List.mem_filter.mp hc).2
  · intro hall
    unfold sanitizeMetricName
    rw [List.filter_eq_self.mpr hall]
  · constructor
    · intro hmem2
      rw [logMetricsLoop_fst] at hmem2
      obtain ⟨kv, hkv, he⟩ := List.mem_filterMap.mp hmem2
      obtain ⟨k2, v2⟩ := kv
      cases v2 with
      | str s => simp at he
      | num m =>
        by_cases hk2 : k2 = sanitizeMetricName k2
        · have hne : ¬(k2 ≠ sanitizeMetricName k2) := by simpa using hk2
          simp only [if_neg hne] at he
          cases he
        · have hne : k2 ≠ sanitizeMetricName k2 := hk2
          simp only [if_pos hne] at he
          have hk2k : k2 = k := by
            have := congrArg (fun e =>
              match e with
              | some (LogEvent.warnRename a _) => a
              | _ => "") he
            simpa using this
          rw [← hk2k]
          exact hne
    · intro hka
      rw [logMetricsLoop_fst]
      refine List.mem_filterMap.mpr ⟨(k, MetricValue.num n), hmem, ?_⟩
      show (if k ≠ sanitizeMetricName k
        then some (LogEvent.warnRename k (sanitizeMetricName k))
        else none) = some (LogEvent.warnRename k (sanitizeMetricName k))
      rw [if_pos hka]

/-- Witness for C7 at the metric mapping of the example in the spec. -/
theorem logMetrics_sanitizes_witness :
    (⟨sanitizeMetricName ("loss@val#1"), 7, 0,
        (none : Option Nat).getD 0⟩ : LoggedMetric) ∈
      (logMetricsLoop 0 none [("loss@val#1", MetricValue.num 7)]).2 ∧
    (∀ c ∈ (sanitizeMetricName ("loss@val#1")).data,
      allowedMetricChar c = true) ∧
    ((∀ c ∈ "loss@val#1".data, allowedMetricChar c = true) →
      sanitizeMetricName ("loss@val#1") = "loss@val#1") ∧
    (LogEvent.warnRename ("loss@val#1") (sanitizeMetricName ("loss@val#1")) ∈
        (logMetricsLoop 0 none [("loss@val#1", MetricValue.num 7)]).1 ↔
      "loss@val#1" ≠ sanitizeMetricName ("loss@val#1")) ∧
    sanitizeMetricName ("loss/val step-1") = "loss/val step-1" ∧
    sanitizeMetricName ("loss@val#1") = "lossval1" :=
  logMetrics_sanitizes 0 none [("loss@val#1", MetricValue.num 7)]
    ("loss@val#1") 7 (List.mem_cons_self _ _)

/-- Claim C8: a string-valued entry is excluded from the transmitted metric
batch with a discard warning and without raising (the loop is total in the
model); removing the string entry leaves the transmitted batch unchanged,
and every numeric entry of the same mapping is still logged. -/
theorem logMetrics_drops_strings (ts : Int) (step : Option Nat)
    (l1 l2 : List (String × MetricValue)) (k s : String) :
    (logMetricsLoop ts step (l1 ++ (k, MetricValue.str s) :: l2)).2 =
      (logMetricsLoop ts step (l1 ++ l2)).2 ∧
    LogEvent.warnDiscard k s ∈
      (logMetricsLoop ts step (l1 ++ (k, MetricValue.str s) :: l2)).1 ∧
    ∀ k2 n, (k2, MetricValue.num n) ∈ l1 ++ (k, MetricValue.str s) :: l2 →
      (⟨sanitizeMetricName k2, n, ts, step.getD 0⟩ : LoggedMetric) ∈
        (logMetricsLoop ts step (l1 ++ (k, MetricValue.str s) :: l2)).2 := by
  refine ⟨?_, ?_, ?_⟩
  · simp [logMetricsLoop_snd, List.filterMap_append]
  · rw [logMetricsLoop_fst]
    refine List.mem_filterMap.mpr ⟨(k, MetricValue.str s), ?_, rfl⟩
    exact List.mem_append.mpr (Or.inr (List.mem_cons_self _ _))
  · intro k2 n hmem
    rw [logMetricsLoop_snd]
    exact List.mem_filterMap.mpr ⟨(k2, MetricValue.num n), hmem, rfl⟩

/-- Witness for C8 at the example mapping of the spec, with one numeric and one
string entry. -/
theorem logMetrics_drops_strings_witness :
    (logMetricsLoop 0 none
        [("a", MetricValue.num 1), ("tag", MetricValue.str ("foo"))]).2 =
      (logMetricsLoop 0 none [("a", MetricValue.num 1)]).2 ∧
    LogEvent.warnDiscard ("tag") ("foo") ∈
      (logMetricsLoop 0 none
        [("a", MetricValue.num 1), ("tag", MetricValue.str ("foo"))]).1 ∧
    ∀ k2 n, (k2, MetricValue.num n) ∈
        [("a", MetricValue.num 1), ("tag", MetricValue.str ("foo"))] →
      (⟨sanitizeMetricName k2, n, 0, (none : Option Nat).getD 0⟩ :
          LoggedMetric) ∈
        (logMetricsLoop 0 none
          [("a", MetricValue.num 1), ("tag", MetricValue.str ("foo"))]).2 :=
  logMetrics_drops_strings 0 none [("a", MetricValue.num 1)] [] ("tag") ("foo")

/-- Claim C9: every checkpoint handed back by the scan is uploaded under
the artifact path "model/checkpoints/" followed by the stem of the filename,
together with a metadata document holding the score, the original filename
and exactly the present checkpoint-policy fields, and an alias list that is
["latest", "best"] exactly when the path equals the best-model path of the callback and ["latest"] otherwise. -/
theorem scanAndLog_spec (runId : String) (cb : ModelCheckpointCB)
    (checkpoints : List (Int × String × Int × String))
    (t : Int) (p : String) (s : Int) (tag : String)
    (hmem : (t, p, s, tag) ∈ checkpoints) :
    MlflowArtifact.file runId p ("model/checkpoints/" ++ pathStem p) ∈
      scanAndLogCheckpoints runId cb checkpoints ∧
    MlflowArtifact.metadataDoc runId ("model/checkpoints/" ++ pathStem p)
        ⟨s, pathName p, checkpointMetaKeys.filterMap
          (fun key => (cb.attrs key).map (fun v => (key, v)))⟩ ∈
      scanAndLogCheckpoints runId cb checkpoints ∧
    MlflowArtifact.aliasesDoc runId ("model/checkpoints/" ++ pathStem p)
        (if p = cb.best_model_path then ["latest", "best"]
         else ["latest"]) ∈
      scanAndLogCheckpoints runId cb checkpoints ∧
    ((if p = cb.best_model_path then ["latest", "best"] else ["latest"])
        = ["latest", "best"] ↔ p = cb.best_model_path) ∧
    (∀ key v, ((key, v) ∈ checkpointMetaKeys.filterMap
        (fun key2 => (cb.attrs key2).map (fun val => (key2, val))) ↔
      (key ∈ checkpointMetaKeys ∧ cb.attrs key = some v))) := by
  refine ⟨?_, ?_, ?_, ?_, ?_⟩
  · exact List.mem_flatMap.mpr ⟨(t, p, s, tag), hmem, by simp⟩
  · exact List.mem_flatMap.mpr ⟨(t, p, s, tag), hmem, by simp⟩
  · exact List.mem_flatMap.mpr ⟨(t, p, s, tag), hmem, by simp⟩
  · by_cases hp : p = cb.best_model_path <;> simp [hp]
  · intro key v
    constructor
    · intro hmem2
      obtain ⟨key2, hk2, he⟩ := List.mem_filterMap.mp hmem2
      cases hattr : cb.attrs key2 with
      | none =>
        rw [hattr] at he
        cases he
      | some v2 =>
        rw [hattr] at he
        simp only [Option.map_some', Option.some.injEq, Prod.mk.injEq] at he
        obtain ⟨hkk, hvv⟩ := he
        subst hkk
        subst hvv
        exact ⟨hk2, hattr⟩
    · rintro ⟨hk, hv⟩
      refine List.mem_filterMap.mpr ⟨key, hk, ?_⟩
      rw [hv]
      rfl

/-- Witness for C9 at a concrete best-path checkpoint. -/
theorem scanAndLog_spec_witness :
    MlflowArtifact.file ("run1") ("ckpts/epoch=1.ckpt")
        ("model/checkpoints/" ++ pathStem ("ckpts/epoch=1.ckpt")) ∈
      scanAndLogCheckpoints ("run1")
        ⟨"ckpts/epoch=1.ckpt",
         fun key => if key = "monitor" then some ("val_loss") else none⟩
        [(0, "ckpts/epoch=1.ckpt", 5, "best")] ∧
    MlflowArtifact.metadataDoc ("run1")
        ("model/checkpoints/" ++ pathStem ("ckpts/epoch=1.ckpt"))
        ⟨5, pathName ("ckpts/epoch=1.ckpt"), checkpointMetaKeys.filterMap
          (fun key =>
            ((fun key2 => if key2 = "monitor" then some ("val_loss")
              else none) key).map (fun v => (key, v)))⟩ ∈
      scanAndLogCheckpoints ("run1")
        ⟨"ckpts/epoch=1.ckpt",
         fun key => if key = "monitor" then some ("val_loss") else none⟩
        [(0, "ckpts/epoch=1.ckpt", 5, "best")] ∧
    MlflowArtifact.aliasesDoc ("run1")
        ("model/checkpoints/" ++ pathStem ("ckpts/epoch=1.ckpt"))
        (if ("ckpts/epoch=1.ckpt") = ("ckpts/epoch=1.ckpt")
         then ["latest", "best"] else ["latest"]) ∈
      scanAndLogCheckpoints ("run1")
        ⟨"ckpts/epoch=1.ckpt",
         fun key => if key = "monitor" then some ("val_loss") else none⟩
        [(0, "ckpts/epoch=1.ckpt", 5, "best")] ∧
    ((if ("ckpts/epoch=1.ckpt") = ("ckpts/epoch=1.ckpt")
        then ["latest", "best"] else ["latest"]) = ["latest", "best"] ↔
      "ckpts/epoch=1.ckpt" = "ckpts/epoch=1.ckpt") ∧
    (∀ key v, ((key, v) ∈ checkpointMetaKeys.filterMap
        (fun key2 =>
          ((fun key3 => if key3 = "monitor" then some ("val_loss")
            else none) key2).map (fun val => (key2, val))) ↔
      (key ∈ checkpointMetaKeys ∧
        (if key = "monitor" then some ("val_loss") else none) = some v))) :=
  scanAndLog_spec ("run1")
    ⟨"ckpts/epoch=1.ckpt",
     fun key => if key = "monitor" then some ("val_loss") else none⟩
    [(0, "ckpts/epoch=1.ckpt", 5, "best")]
    0 ("ckpts/epoch=1.ckpt") 5 ("best") (List.mem_cons_self _ _)
